import Mathlib

/-!
# Verification of the 3D portfolio site's utility modules

A shallow embedding of the repository's cache manager
(`src/utils/cacheManager.ts`), resource preloader
(`src/utils/performanceOptimizer.ts`), route table (`src/App.tsx`) and
error boundary (`src/components/ui/ErrorBoundary.tsx`), with theorems
settling the specification claims about them.

JavaScript `Map<string, V>` objects are embedded as association lists in
insertion order: `Map.set` updates an existing key in place (keeping its
position) or appends a fresh key at the end; `Map.delete` removes the
entry; iteration follows the list.  `Date.now()` / elapsed time is an
explicit `now : Nat` parameter.  JavaScript truthiness tests on strings
(`if (oldestKey)`) and on numbers (`item.expiry && ...`,
`expiry || default`) are embedded as explicit comparisons with `""` and
`0`.
-/

namespace Site3D

/-! ## JavaScript `Map` embedding -/

/-- `map.get(k)`: first (and, for genuine JS maps, only) entry with key `k`. -/
def jsGet {α : Type} (k : String) (m : List (String × α)) : Option α :=
  (m.find? (fun e => e.1 = k)).map Prod.snd

/-- `map.set(k, v)`: overwrite in place if the key is present, else append. -/
def jsSet {α : Type} (k : String) (v : α) (m : List (String × α)) : List (String × α) :=
  if m.any (fun e => e.1 = k) then
    m.map (fun e => if e.1 = k then (k, v) else e)
  else
    m ++ [(k, v)]

/-- `map.delete(k)`: remove the entry with key `k` (the first match). -/
def jsDelete {α : Type} (k : String) (m : List (String × α)) : List (String × α) :=
  m.eraseP (fun e => e.1 = k)

/-- `map.keys().next().value`: the first key in insertion order, if any. -/
def jsFirstKey {α : Type} (m : List (String × α)) : Option String :=
  m.head?.map Prod.fst

/-- The keys of a JS map are pairwise distinct (an invariant of `Map`). -/
def keysNodup {α : Type} (m : List (String × α)) : Prop :=
  (m.map Prod.fst).Nodup

instance {α : Type} (m : List (String × α)) : Decidable (keysNodup m) := by
  unfold keysNodup; infer_instance

/-! ## `CacheManager` (src/utils/cacheManager.ts)

Only the generic in-memory cache (`memoryCache`) is modelled; the three
Three.js resource maps (`textureCache`, `geometryCache`, `materialCache`)
hold opaque GPU objects and are untouched by the claims. -/

/-- `interface CacheItem<T>` — `data`, creation `timestamp`, optional `expiry`. -/
structure CacheItem (α : Type) where
  data : α
  timestamp : Nat
  expiry : Option Nat
deriving DecidableEq, Repr

/-- `maxMemoryCacheSize = 100`. -/
def maxMemoryCacheSize : Nat := 100

/-- `defaultExpiry = 30 * 60 * 1000` (30 minutes, in milliseconds). -/
def defaultExpiry : Nat := 30 * 60 * 1000

/-- The `CacheManager`'s `memoryCache` field. -/
structure CacheManager (α : Type) where
  memoryCache : List (String × CacheItem α)
deriving DecidableEq, Repr

/-- The cache of a freshly constructed `CacheManager`. -/
def CacheManager.empty {α : Type} : CacheManager α := ⟨[]⟩

/-- `expiry || this.defaultExpiry`: `undefined` and `0` are falsy. -/
def effectiveExpiry (expiry : Option Nat) : Nat :=
  match expiry with
  | none => defaultExpiry
  | some e => if e = 0 then defaultExpiry else e

/-- `item.expiry && now - item.timestamp > item.expiry`, the shared
expiration test of `get` and `cleanupExpiredCache`.  A missing or zero
`expiry` is falsy, so such an item never counts as expired.  In
JavaScript `now - timestamp` can be negative when `timestamp > now`, in
which case the `>` test is false; truncated `Nat` subtraction gives `0 > e`,
false as well (`e = 0` is already excluded), so `Nat` arithmetic agrees. -/
def isExpired {α : Type} (item : CacheItem α) (now : Nat) : Bool :=
  match item.expiry with
  | none => false
  | some e => if e = 0 then false else decide (now - item.timestamp > e)

/-- `CacheManager.set(key, data, expiry?)` at time `now`.

```js
if (this.memoryCache.size >= this.maxMemoryCacheSize) {
  const oldestKey = this.memoryCache.keys().next().value;
  if (oldestKey) { this.memoryCache.delete(oldestKey); }
}
this.memoryCache.set(key, { data, timestamp: Date.now(),
                            expiry: expiry || this.defaultExpiry });
```
Note `if (oldestKey)` is false both for `undefined` and for the empty
string. -/
def CacheManager.set {α : Type} (c : CacheManager α) (key : String) (data : α)
    (expiry : Option Nat) (now : Nat) : CacheManager α :=
  let cache1 :=
    if c.memoryCache.length ≥ maxMemoryCacheSize then
      match jsFirstKey c.memoryCache with
      | some oldestKey =>
          if oldestKey = "" then c.memoryCache else jsDelete oldestKey c.memoryCache
      | none => c.memoryCache
    else c.memoryCache
  ⟨jsSet key ⟨data, now, some (effectiveExpiry expiry)⟩ cache1⟩

/-- `CacheManager.get(key)` at time `now`: the returned value and the
cache state afterwards.

```js
const item = this.memoryCache.get(key);
if (!item) return null;
if (item.expiry && Date.now() - item.timestamp > item.expiry) {
  this.memoryCache.delete(key);
  return null;
}
return item.data;
``` -/
def CacheManager.get {α : Type} (c : CacheManager α) (key : String) (now : Nat) :
    Option α × CacheManager α :=
  match jsGet key c.memoryCache with
  | none => (none, c)
  | some item =>
      if isExpired item now then
        (none, ⟨jsDelete key c.memoryCache⟩)
      else
        (some item.data, c)

/-- `CacheManager.cleanupExpiredCache()` at time `now`: delete every
expired entry while iterating (`Map` iteration with deletion of the
current key behaves as a filter). -/
def CacheManager.cleanupExpiredCache {α : Type} (c : CacheManager α) (now : Nat) :
    CacheManager α :=
  ⟨c.memoryCache.filter (fun kv => !isExpired kv.2 now)⟩

/-- The `memoryCache` component of `CacheManager.getStats()` (the other
three components count the unmodelled Three.js resource maps). -/
def CacheManager.getStats {α : Type} (c : CacheManager α) : Nat :=
  c.memoryCache.length

/-- An item whose expiry is present and positive — exactly what `set`
stores, since `expiry || defaultExpiry` is never `0` or absent. -/
def goodExpiry {α : Type} (it : CacheItem α) : Bool :=
  match it.expiry with
  | none => false
  | some e => decide (0 < e)

/-- States whose every item carries a positive, present expiry and whose
keys are distinct, as in every JS `Map`: the states `set` builds. -/
def CacheManager.wellFormed {α : Type} (c : CacheManager α) : Prop :=
  keysNodup c.memoryCache ∧ ∀ kv ∈ c.memoryCache, goodExpiry kv.2 = true

instance {α : Type} (c : CacheManager α) : Decidable c.wellFormed := by
  unfold CacheManager.wellFormed; infer_instance

/-! ### Concrete cache states used as test inputs -/

/-- Apply a list of `set` operations (key, data), all at time `0` with
default expiry, starting from the empty cache. -/
def applySets (ops : List (String × Nat)) : CacheManager Nat :=
  ops.foldl (fun c kv => c.set kv.1 kv.2 none 0) CacheManager.empty

/-- 100 `set` operations with keys `"0"`, …, `"99"`. -/
def seedOps : List (String × Nat) :=
  (List.range 100).map (fun i => (toString i, i))

/-- A full cache (100 entries) built from `set` operations; its oldest
key is `"0"`. -/
def bigCache : CacheManager Nat := applySets seedOps

/-- 100 `set` operations whose first key is the empty string. -/
def emptyKeySeedOps : List (String × Nat) :=
  ("", 0) :: (List.range 99).map (fun i => (toString (i + 1), i + 1))

/-- A full cache (100 entries) whose oldest key is `""`. -/
def trapCache : CacheManager Nat := applySets emptyKeySeedOps

set_option maxRecDepth 10000

example : bigCache.memoryCache.length = 100 := by decide
example : trapCache.memoryCache.length = 100 := by decide
example : jsFirstKey trapCache.memoryCache = some "" := by decide

/-! ## Eviction (claims C1 and C2) -/

/-- C1 (counterexample).  The in-memory cache does not use LRU eviction
with `get` refreshing recency: in `bigCache` (100 entries, keys `"0"`,
…, `"99"` in insertion order) a successful `get "0"` — which under the
claim would make `"0"` the most recently used entry and `"1"` the least
recently used one — is followed by a `set "x"`, and the code evicts
`"0"` anyway while `"1"` survives.  Under the claim, `"0"` would have
remained in the cache. -/
theorem get_then_set_evicts_most_recently_used_entry :
    (bigCache.get "0" 0).1 = some 0 ∧
    (bigCache.get "0" 0).2 = bigCache ∧
    jsGet "0" (((bigCache.get "0" 0).2.set "x" 5 none 0).memoryCache) = none ∧
    jsGet "1" (((bigCache.get "0" 0).2.set "x" 5 none 0).memoryCache) = some ⟨1, 0, some defaultExpiry⟩ := by
  decide

/-- C1 (amended).  Eviction is by insertion order, not LRU: whenever the
cache holds at least `maxMemoryCacheSize` entries and its first-inserted
key is not the empty string, `set` evicts that first-inserted key
(whatever the access history), and a `get` of a present, non-expired key
returns its data while leaving the cache — in particular the insertion
order that eviction consults — completely unchanged. -/
theorem set_evicts_first_inserted_and_get_does_not_refresh :
    (∀ (α : Type) (c : CacheManager α) (key : String) (data : α)
        (expiry : Option Nat) (now : Nat) (fk : String),
        maxMemoryCacheSize ≤ c.memoryCache.length →
        jsFirstKey c.memoryCache = some fk → fk ≠ "" →
        (c.set key data expiry now).memoryCache
          = jsSet key ⟨data, now, some (effectiveExpiry expiry)⟩
              (jsDelete fk c.memoryCache)) ∧
    (∀ (α : Type) (c : CacheManager α) (key : String) (now : Nat)
        (item : CacheItem α),
        jsGet key c.memoryCache = some item → isExpired item now = false →
        c.get key now = (some item.data, c)) := by
  constructor
  · intro α c key data expiry now fk hfull hfirst hne
    simp only [CacheManager.set, ge_iff_le, if_pos hfull, hfirst]
    rw [if_neg hne]
  · intro α c key now item hget hexp
    simp only [CacheManager.get, hget, hexp, Bool.false_eq_true, if_false]

/-- Witness for the amended C1 theorem at the concrete full cache
`bigCache`. -/
theorem set_evicts_first_inserted_witness :
    (bigCache.set "x" 5 none 0).memoryCache
      = jsSet "x" ⟨5, 0, some (effectiveExpiry none)⟩ (jsDelete "0" bigCache.memoryCache) ∧
    bigCache.get "1" 0 = (some 1, bigCache) :=
  ⟨set_evicts_first_inserted_and_get_does_not_refresh.1 Nat bigCache "x" 5 none 0 "0"
      (by decide) (by decide) (by decide),
   set_evicts_first_inserted_and_get_does_not_refresh.2 Nat bigCache "1" 0
      ⟨1, 0, some defaultExpiry⟩ (by decide) (by decide)⟩

/-- C2 (code bug).  The size bound is violated: starting from the empty
cache, 100 `set` operations whose first key is the empty string fill
the cache, and one further `set` inserts a 101st entry without evicting
anything — the `if (oldestKey)` guard treats the empty-string key as
falsy, so the eviction branch is skipped even though the cache is full,
contradicting the code's own comment that the oldest item is deleted
when the cache is full. -/
theorem set_on_full_cache_with_empty_string_first_key_overflows :
    trapCache.memoryCache.length = 100 ∧
    (trapCache.set "x" 5 none 0).memoryCache.length = 101 := by
  decide

/-! ## Expiry sweep and the effect of `get` (claims C6 and C9) -/

/-- A small cache used as a concrete test input: entry `"a"` expires at
age 10, entry `"b"` at age 5; both were stored at time 0. -/
def smallCache : CacheManager Nat :=
  ⟨[("a", ⟨1, 0, some 10⟩), ("b", ⟨2, 0, some 5⟩)]⟩

/-- Looking a key up after deleting it finds nothing, when the map's
keys are distinct. -/
lemma jsGet_jsDelete_self {α : Type} (k : String) (m : List (String × α))
    (h : keysNodup m) : jsGet k (jsDelete k m) = none := by
  induction m with
  | nil => rfl
  | cons kv t ih =>
    have h' : kv.1 ∉ t.map Prod.fst ∧ (t.map Prod.fst).Nodup := by
      simpa [keysNodup] using h
    by_cases hek : kv.1 = k
    · subst hek
      have hdel : jsDelete kv.1 (kv :: t) = t := by
        unfold jsDelete
        exact List.eraseP_cons_of_pos (by simp)
      rw [hdel]
      unfold jsGet
      rw [List.find?_eq_none.mpr]
      · rfl
      · intro x hx hpx
        exact h'.1 (List.mem_map.mpr ⟨x, hx, of_decide_eq_true hpx⟩)
    · have hdel : jsDelete k (kv :: t) = kv :: jsDelete k t := by
        unfold jsDelete
        exact List.eraseP_cons_of_neg (by simpa using hek)
      rw [hdel]
      unfold jsGet at ih ⊢
      rw [List.find?_cons_of_neg _ (by simpa using hek)]
      exact ih h'.2

/-- C6.  `cleanupExpiredCache` keeps an entry exactly when its age does
not exceed its expiry, and keeps surviving entries (key, data,
timestamp, expiry) unchanged, in their original order.  The claim's
notion of age applies to states built by `set`, whose items always
carry a present, positive expiry (`wellFormed`); the sweep itself is
registered with `setInterval` in the constructor, which is outside this
embedding of the cache state. -/
theorem cleanupExpiredCache_removes_exactly_expired :
    ∀ (α : Type) (c : CacheManager α) (now : Nat), c.wellFormed →
      (∀ (key : String) (item : CacheItem α),
        ((key, item) ∈ (c.cleanupExpiredCache now).memoryCache ↔
          ((key, item) ∈ c.memoryCache ∧
            ∀ e, item.expiry = some e → now - item.timestamp ≤ e))) ∧
      (c.cleanupExpiredCache now).memoryCache.Sublist c.memoryCache := by
  intro α c now hwf
  refine ⟨fun key item => ?_, List.filter_sublist _⟩
  unfold CacheManager.cleanupExpiredCache
  rw [List.mem_filter]
  constructor
  · rintro ⟨hmem, hkeep⟩
    refine ⟨hmem, fun e he => ?_⟩
    have hgood := hwf.2 _ hmem
    simp only [goodExpiry, he] at hgood
    have hne : e ≠ 0 := Nat.pos_iff_ne_zero.mp (of_decide_eq_true hgood)
    simp only [isExpired, he, if_neg hne] at hkeep
    exact Nat.not_lt.mp (by simpa using hkeep)
  · rintro ⟨hmem, hle⟩
    refine ⟨hmem, ?_⟩
    have hgood := hwf.2 _ hmem
    cases hexp : item.expiry with
    | none =>
      simp only [goodExpiry, hexp] at hgood
      exact Bool.noConfusion hgood
    | some e =>
      simp only [goodExpiry, hexp] at hgood
      have hne : e ≠ 0 := Nat.pos_iff_ne_zero.mp (of_decide_eq_true hgood)
      simp only [isExpired, hexp, if_neg hne]
      simpa using Nat.not_lt.mpr (hle e hexp)

/-- Witness: in `smallCache` at time 7, the sweep keeps `"a"` (age 7 ≤
expiry 10) and removes `"b"` (age 7 > expiry 5). -/
theorem cleanupExpiredCache_witness :
    (("a", (⟨1, 0, some 10⟩ : CacheItem Nat)) ∈ (smallCache.cleanupExpiredCache 7).memoryCache ↔
      (("a", (⟨1, 0, some 10⟩ : CacheItem Nat)) ∈ smallCache.memoryCache ∧
        ∀ e, (⟨1, 0, some 10⟩ : CacheItem Nat).expiry = some e →
          7 - (⟨1, 0, some 10⟩ : CacheItem Nat).timestamp ≤ e)) ∧
    (smallCache.cleanupExpiredCache 7).memoryCache = [("a", ⟨1, 0, some 10⟩)] :=
  ⟨(cleanupExpiredCache_removes_exactly_expired Nat smallCache 7 (by decide)).1
      "a" ⟨1, 0, some 10⟩,
   by decide⟩

/-- C9.  `get` is not read-only: a `get` of an expired entry returns
`null` and deletes the entry — the cache size (`getStats().memoryCache`)
drops by one, and a second `get` of the key still returns `null` without
further change — while a `get` of a missing key or of a non-expired
entry returns `null` resp. the stored data and leaves the cache state
completely unchanged. -/
theorem get_is_not_read_only :
    ∀ (α : Type) (c : CacheManager α) (key : String) (now : Nat), c.wellFormed →
      (jsGet key c.memoryCache = none → c.get key now = (none, c)) ∧
      (∀ (item : CacheItem α) (e : Nat),
        jsGet key c.memoryCache = some item → item.expiry = some e →
        e < now - item.timestamp →
        c.get key now = (none, ⟨jsDelete key c.memoryCache⟩) ∧
        (CacheManager.mk (jsDelete key c.memoryCache) : CacheManager α).getStats + 1
          = c.getStats ∧
        (CacheManager.mk (jsDelete key c.memoryCache) : CacheManager α).get key now
          = (none, ⟨jsDelete key c.memoryCache⟩)) ∧
      (∀ (item : CacheItem α) (e : Nat),
        jsGet key c.memoryCache = some item → item.expiry = some e →
        now - item.timestamp ≤ e →
        c.get key now = (some item.data, c)) := by
  intro α c key now hwf
  refine ⟨fun h => ?_, fun item e hget hexp hlt => ?_, fun item e hget hexp hle => ?_⟩
  · simp only [CacheManager.get, h]
  · obtain ⟨p, hp, hsnd⟩ := Option.map_eq_some'.mp hget
    have hpmem := List.mem_of_find?_eq_some hp
    have hgood := hwf.2 _ hpmem
    rw [hsnd] at hgood
    simp only [goodExpiry, hexp] at hgood
    have hne : e ≠ 0 := Nat.pos_iff_ne_zero.mp (of_decide_eq_true hgood)
    have hkey : p.1 = key := by
      have h2 := List.find?_some hp
      simpa using h2
    have hexpd : isExpired item now = true := by
      simp only [isExpired, hexp, if_neg hne]
      simpa using hlt
    refine ⟨?_, ?_, ?_⟩
    · simp only [CacheManager.get, hget, hexpd, if_true]
    · have hlen : (jsDelete key c.memoryCache).length + 1 = c.memoryCache.length := by
        unfold jsDelete
        exact List.length_eraseP_add_one hpmem (by simpa using hkey)
      simpa [CacheManager.getStats] using hlen
    · have hnone : jsGet key (jsDelete key c.memoryCache) = none :=
        jsGet_jsDelete_self key c.memoryCache hwf.1
      simp only [CacheManager.get, hnone]
  · have hne : e ≠ 0 := by
      obtain ⟨p, hp, hsnd⟩ := Option.map_eq_some'.mp hget
      have hgood := hwf.2 _ (List.mem_of_find?_eq_some hp)
      rw [hsnd] at hgood
      simp only [goodExpiry, hexp] at hgood
      exact Nat.pos_iff_ne_zero.mp (of_decide_eq_true hgood)
    have hexpd : isExpired item now = false := by
      simp only [isExpired, hexp, if_neg hne]
      simpa using Nat.not_lt.mpr hle
    simp only [CacheManager.get, hget, hexpd, Bool.false_eq_true, if_false]

/-- Witness: in `smallCache` at time 7, `get "b"` hits an expired entry
(expiry 5 < age 7): it returns `none`, removes the entry, the size drops
from 2 to 1, and a second `get "b"` still returns `none`. -/
theorem get_is_not_read_only_witness :
    smallCache.get "b" 7 = (none, ⟨jsDelete "b" smallCache.memoryCache⟩) ∧
    (CacheManager.mk (jsDelete "b" smallCache.memoryCache) : CacheManager Nat).getStats + 1
      = smallCache.getStats ∧
    (CacheManager.mk (jsDelete "b" smallCache.memoryCache) : CacheManager Nat).get "b" 7
      = (none, ⟨jsDelete "b" smallCache.memoryCache⟩) :=
  (get_is_not_read_only Nat smallCache "b" 7 (by decide)).2.1 ⟨2, 0, some 5⟩ 5
    (by decide) rfl (by decide)

/-! ## `ResourcePreloader` (src/utils/performanceOptimizer.ts) -/

/-- `ResourceItem['type']`. -/
inductive ResourceType where
  | texture
  | model
  | audio
  | json
deriving DecidableEq, Repr

/-- `ResourceItem['priority']`. -/
inductive ResourcePriority where
  | high
  | medium
  | low
deriving DecidableEq, Repr

/-- The `priorityOrder = { high: 0, medium: 1, low: 2 }` table of
`addResource`. -/
def priorityOrder : ResourcePriority → Nat
  | .high => 0
  | .medium => 1
  | .low => 2

/-- `interface ResourceItem` (its optional `preload` flag is never read
by the code). -/
structure ResourceItem where
  url : String
  type : ResourceType
  priority : ResourcePriority
deriving DecidableEq, Repr

/-- `maxConcurrentLoads = 3`. -/
def maxConcurrentLoads : Nat := 3

/-- `addResource(url, type, priority)`: insert the new item into
`loadingQueue` before the first strictly-lower-priority item
(`findIndex` returning `-1`, i.e. `none`, appends at the end;
`splice(insertIndex, 0, resource)` is `insertIdx`). -/
def addResource (queue : List ResourceItem) (url : String) (type : ResourceType)
    (priority : ResourcePriority) : List ResourceItem :=
  let resource : ResourceItem := ⟨url, type, priority⟩
  match queue.findIdx? (fun item => priorityOrder item.priority > priorityOrder priority) with
  | none => queue ++ [resource]
  | some insertIndex => queue.insertIdx insertIndex resource

/-- `addResources(resources)`: `addResource` for each element in order. -/
def addResources (queue : List ResourceItem) (resources : List ResourceItem) :
    List ResourceItem :=
  resources.foldl (fun q r => addResource q r.url r.type r.priority) queue

/-- The queue ordering `addResource` maintains: nondecreasing
`priorityOrder`, i.e. `high` before `medium` before `low`. -/
def PriorityLE (a b : ResourceItem) : Prop :=
  priorityOrder a.priority ≤ priorityOrder b.priority

instance (a b : ResourceItem) : Decidable (PriorityLE a b) := by
  unfold PriorityLE; infer_instance

/-- The mutable fields of the `ResourcePreloader` singleton that the
claims concern, plus bookkeeping lists recording the fate of each
dequeued item: `inFlight` holds the items currently awaited inside a
`loadNext` call, `succeeded` those whose load resolved (and were
entered into `loadedResources` and reported to `onProgress`), `failed`
those whose load rejected (reported once to `onError`).
`loadedResources` is the key set of the `Map<string, any>`; the loaded
values are opaque. -/
structure PreloaderState where
  loadingQueue : List ResourceItem
  currentLoads : Nat
  isLoading : Bool
  loadedResources : List String
  inFlight : List ResourceItem
  succeeded : List ResourceItem
  failed : List ResourceItem
deriving DecidableEq, Repr

/-- `this.loadedResources.set(item.url, resource)` as seen on the key
set: keep the position if the key is present, else append. -/
def jsSetKey (k : String) (ks : List String) : List String :=
  if k ∈ ks then ks else ks ++ [k]

/-- One event-loop step during an execution of `preload`.

`startLoad` is the synchronous prefix of a `loadNext()` call up to its
`await` (the guard `loadingQueue.length === 0 || currentLoads >=
maxConcurrentLoads`, then `shift()` and `currentLoads++`).
`finishSuccess` / `finishFailure` resume when an awaited load settles:
on success `loadedResources.set(item.url, resource)` and `onProgress`,
on rejection `onError(error, item)` once; both then run
`finally { this.currentLoads-- }`.  The recursive `loadNext()` that
`finally` issues while the queue is non-empty is a subsequent
`startLoad` step, and `finishRun` is its `else if (currentLoads === 0)`
branch, which ends the run (`isLoading = false`, `onComplete`).  The
relation admits every interleaving of the at most three concurrent
`loadNext` chains; the actual event-loop schedule is one of them. -/
inductive PreloadStep : PreloaderState → PreloaderState → Prop where
  | startLoad (s : PreloaderState) (item : ResourceItem) (rest : List ResourceItem)
      (hq : s.loadingQueue = item :: rest)
      (hc : s.currentLoads < maxConcurrentLoads) :
      PreloadStep s { s with
        loadingQueue := rest
        currentLoads := s.currentLoads + 1
        inFlight := item :: s.inFlight }
  | finishSuccess (s : PreloaderState) (item : ResourceItem)
      (hmem : item ∈ s.inFlight) :
      PreloadStep s { s with
        inFlight := s.inFlight.erase item
        currentLoads := s.currentLoads - 1
        loadedResources := jsSetKey item.url s.loadedResources
        succeeded := item :: s.succeeded }
  | finishFailure (s : PreloaderState) (item : ResourceItem)
      (hmem : item ∈ s.inFlight) :
      PreloadStep s { s with
        inFlight := s.inFlight.erase item
        currentLoads := s.currentLoads - 1
        failed := item :: s.failed }
  | finishRun (s : PreloaderState)
      (hq : s.loadingQueue = [])
      (hc : s.currentLoads = 0)
      (hl : s.isLoading = true) :
      PreloadStep s { s with isLoading := false }

/-- The preloader at the start of a run of `preload` over queue `q`,
with `l0` the keys already in `loadedResources` from earlier runs:
the guard has passed and `isLoading` has just been set. -/
def initRun (q : List ResourceItem) (l0 : List String) : PreloaderState :=
  ⟨q, 0, true, l0, [], [], []⟩

/-- States reachable during a run of `preload`. -/
def PreloadReachable (q : List ResourceItem) (l0 : List String)
    (s : PreloaderState) : Prop :=
  Relation.ReflTransGen PreloadStep (initRun q l0) s

/-- The inductive invariant of a `preload` run. -/
def PreloadInv (q : List ResourceItem) (l0 : List String)
    (s : PreloaderState) : Prop :=
  s.currentLoads = s.inFlight.length ∧
  s.currentLoads ≤ maxConcurrentLoads ∧
  (s.isLoading = false → s.loadingQueue = [] ∧ s.currentLoads = 0) ∧
  s.loadingQueue <:+ q ∧
  ((s.failed : Multiset ResourceItem) + ↑s.succeeded + ↑s.inFlight + ↑s.loadingQueue
    = (q : Multiset ResourceItem)) ∧
  (∀ u ∈ s.loadedResources, u ∈ l0 ∨ ∃ it, it ∈ s.succeeded ∧ it.url = u)

lemma preloadInv_init (q : List ResourceItem) (l0 : List String) :
    PreloadInv q l0 (initRun q l0) := by
  refine ⟨rfl, by simp [initRun, maxConcurrentLoads], ?_, List.suffix_refl q, by simp [initRun], ?_⟩
  · intro h
    exact Bool.noConfusion h
  · intro u hu
    exact Or.inl hu

lemma preloadInv_step {q : List ResourceItem} {l0 : List String}
    {s s' : PreloaderState} (inv : PreloadInv q l0 s) (hstep : PreloadStep s s') :
    PreloadInv q l0 s' := by
  obtain ⟨hlen, hcap, hidle, hsuf, hperm, hload⟩ := inv
  cases hstep with
  | startLoad item rest hq hc =>
    refine ⟨by simp [hlen], hc, ?_, ?_, ?_, hload⟩
    · intro h
      rcases hidle h with ⟨h1, _⟩
      rw [hq] at h1
      exact absurd h1 (List.cons_ne_nil _ _)
    · exact (List.suffix_cons item rest).trans (hq ▸ hsuf)
    · dsimp only
      rw [hq] at hperm
      rw [← hperm]
      simp only [← Multiset.cons_coe, Multiset.cons_add, Multiset.add_cons]
  | finishSuccess item hmem =>
    have herase := List.length_erase_add_one hmem
    have hin : (s.inFlight : Multiset ResourceItem) = item ::ₘ ↑(s.inFlight.erase item) := by
      rw [← Multiset.coe_erase]
      exact (Multiset.cons_erase (by exact_mod_cast hmem)).symm
    refine ⟨?_, le_trans (Nat.sub_le _ _) hcap, ?_, hsuf, ?_, ?_⟩
    · dsimp only
      rw [hlen]
      omega
    · intro h
      rcases hidle h with ⟨h1, h2⟩
      exact ⟨h1, by dsimp only; rw [h2]⟩
    · dsimp only
      rw [← hperm, hin]
      simp only [← Multiset.cons_coe, Multiset.cons_add, Multiset.add_cons]
    · intro u hu
      unfold jsSetKey at hu
      by_cases hmemu : item.url ∈ s.loadedResources
      · rw [if_pos hmemu] at hu
        rcases hload u hu with h0 | ⟨it, hit, hurl⟩
        · exact Or.inl h0
        · exact Or.inr ⟨it, List.mem_cons_of_mem _ hit, hurl⟩
      · rw [if_neg hmemu] at hu
        rcases List.mem_append.mp hu with h0 | h1
        · rcases hload u h0 with h2 | ⟨it, hit, hurl⟩
          · exact Or.inl h2
          · exact Or.inr ⟨it, List.mem_cons_of_mem _ hit, hurl⟩
        · exact Or.inr ⟨item, List.mem_cons_self _ _, (List.mem_singleton.mp h1).symm⟩
  | finishFailure item hmem =>
    have herase := List.length_erase_add_one hmem
    have hin : (s.inFlight : Multiset ResourceItem) = item ::ₘ ↑(s.inFlight.erase item) := by
      rw [← Multiset.coe_erase]
      exact (Multiset.cons_erase (by exact_mod_cast hmem)).symm
    refine ⟨?_, le_trans (Nat.sub_le _ _) hcap, ?_, hsuf, ?_, hload⟩
    · dsimp only
      rw [hlen]
      omega
    · intro h
      rcases hidle h with ⟨h1, h2⟩
      exact ⟨h1, by dsimp only; rw [h2]⟩
    · dsimp only
      rw [← hperm, hin]
      simp only [← Multiset.cons_coe, Multiset.cons_add, Multiset.add_cons]
  | finishRun hq hc hl =>
    exact ⟨hlen, hcap, fun _ => ⟨hq, hc⟩, hsuf, hperm, hload⟩

lemma preload_inv_reachable (q : List ResourceItem) (l0 : List String)
    (s : PreloaderState) (h : PreloadReachable q l0 s) : PreloadInv q l0 s := by
  unfold PreloadReachable at h
  induction h with
  | refl => exact preloadInv_init q l0
  | tail _ hbc ih => exact preloadInv_step ih hbc

/-- C3.  During any execution of `preload` — any interleaving of
`PreloadStep`s from the start of a run, whatever the initial queue and
previously loaded resources — the number of loads in flight
(`currentLoads`) never exceeds `maxConcurrentLoads = 3`, and once the
run has ended (`isLoading` back to `false`) it has returned to `0`. -/
theorem preload_concurrency_cap :
    ∀ (q : List ResourceItem) (l0 : List String) (s : PreloaderState),
      PreloadReachable q l0 s →
      s.currentLoads ≤ maxConcurrentLoads ∧
      (s.isLoading = false → s.currentLoads = 0) := by
  intro q l0 s h
  have inv := preload_inv_reachable q l0 s h
  exact ⟨inv.2.1, fun hl => (inv.2.2.1 hl).2⟩

/-- A concrete resource item. -/
def itemA : ResourceItem := ⟨"model.glb", .model, .high⟩

/-- The state after one `startLoad` step on the single-item queue
`[itemA]`. -/
def oneLoadState : PreloaderState := ⟨[], 1, true, [], [itemA], [], []⟩

/-- Witness: the cap holds in the state reached by dequeuing `itemA`. -/
theorem preload_concurrency_cap_witness :
    oneLoadState.currentLoads ≤ maxConcurrentLoads ∧
    (oneLoadState.isLoading = false → oneLoadState.currentLoads = 0) :=
  preload_concurrency_cap [itemA] [] oneLoadState
    (Relation.ReflTransGen.single
      (PreloadStep.startLoad (initRun [itemA] []) itemA [] rfl (by decide)))

/-- C5.  No retry policy: during a run, the queue is only ever consumed
(every reachable queue is a suffix of the initial one — nothing is
re-enqueued); every initial queue occurrence of an item is accounted
for exactly once as failed, succeeded, in flight, or still queued (so a
failed load, recorded once by its single `onError` call, is never
loaded again); `loadedResources` keys come only from earlier runs or
from items that succeeded in this one (a failed item's url is never
entered); and after a failure the run can always continue: whenever the
queue is non-empty and a load slot is free, a next `startLoad` step is
enabled. -/
theorem preload_failure_not_retried :
    ∀ (q : List ResourceItem) (l0 : List String) (s : PreloaderState),
      PreloadReachable q l0 s →
      (s.loadingQueue <:+ q) ∧
      ((s.failed : Multiset ResourceItem) + ↑s.succeeded + ↑s.inFlight + ↑s.loadingQueue
        = (q : Multiset ResourceItem)) ∧
      (∀ u ∈ s.loadedResources, u ∈ l0 ∨ ∃ it, it ∈ s.succeeded ∧ it.url = u) ∧
      (s.loadingQueue ≠ [] → s.currentLoads < maxConcurrentLoads →
        ∃ s', PreloadStep s s') := by
  intro q l0 s h
  have inv := preload_inv_reachable q l0 s h
  refine ⟨inv.2.2.2.1, inv.2.2.2.2.1, ?_, ?_⟩
  · intro u hu
    rcases inv.2.2.2.2.2 u hu with h0 | ⟨it, hit, hurl⟩
    · exact Or.inl h0
    · exact Or.inr ⟨it, hit, hurl⟩
  · intro hq hc
    cases hqe : s.loadingQueue with
    | nil => exact absurd hqe hq
    | cons item rest => exact ⟨_, PreloadStep.startLoad s item rest hqe hc⟩

/-- The state after `itemA`'s load was started and then rejected. -/
def failedState : PreloaderState := ⟨[], 0, true, [], [], [], [itemA]⟩

/-- Witness: after a start and a failure on the queue `[itemA]`, the
item sits once in `failed`, the queue is empty, and nothing was entered
into `loadedResources`. -/
theorem preload_failure_not_retried_witness :
    (failedState.loadingQueue <:+ [itemA]) ∧
    ((failedState.failed : Multiset ResourceItem) + ↑failedState.succeeded
        + ↑failedState.inFlight + ↑failedState.loadingQueue
      = ([itemA] : Multiset ResourceItem)) ∧
    (∀ u ∈ failedState.loadedResources,
        u ∈ ([] : List String) ∨ ∃ it, it ∈ failedState.succeeded ∧ it.url = u) ∧
    (failedState.loadingQueue ≠ [] →
        failedState.currentLoads < maxConcurrentLoads →
        ∃ s', PreloadStep failedState s') :=
  preload_failure_not_retried [itemA] [] failedState
    ((Relation.ReflTransGen.single
        (PreloadStep.startLoad (initRun [itemA] []) itemA [] rfl (by decide))).tail
      (PreloadStep.finishFailure oneLoadState itemA (by decide)))

/-! ## Queue ordering (claim C4) -/

lemma addResource_nil (url : String) (type : ResourceType) (priority : ResourcePriority) :
    addResource [] url type priority = [⟨url, type, priority⟩] := rfl

lemma addResource_cons (x : ResourceItem) (xs : List ResourceItem)
    (url : String) (type : ResourceType) (priority : ResourcePriority) :
    addResource (x :: xs) url type priority =
      if priorityOrder priority < priorityOrder x.priority then
        ⟨url, type, priority⟩ :: x :: xs
      else
        x :: addResource xs url type priority := by
  by_cases hx : priorityOrder priority < priorityOrder x.priority
  · rw [if_pos hx]
    simp [addResource, List.findIdx?_cons, hx, List.insertIdx_zero]
  · rw [if_neg hx]
    cases h : List.findIdx?
        (fun item => decide (priorityOrder item.priority > priorityOrder priority)) xs with
    | none =>
      simp [addResource, List.findIdx?_cons, hx, List.findIdx?_succ, h]
    | some i =>
      simp [addResource, List.findIdx?_cons, hx, List.findIdx?_succ, h,
        List.insertIdx_succ_cons]

lemma mem_addResource {b : ResourceItem} (q : List ResourceItem)
    (url : String) (type : ResourceType) (priority : ResourcePriority)
    (hb : b ∈ addResource q url type priority) :
    b = ⟨url, type, priority⟩ ∨ b ∈ q := by
  induction q with
  | nil =>
    rw [addResource_nil] at hb
    exact Or.inl (List.mem_singleton.mp hb)
  | cons x xs ih =>
    rw [addResource_cons] at hb
    by_cases hx : priorityOrder priority < priorityOrder x.priority
    · rw [if_pos hx] at hb
      rcases List.mem_cons.mp hb with h | h
      · exact Or.inl h
      · exact Or.inr h
    · rw [if_neg hx] at hb
      rcases List.mem_cons.mp hb with h | h
      · exact Or.inr (h ▸ List.mem_cons_self x xs)
      · rcases ih h with h1 | h1
        · exact Or.inl h1
        · exact Or.inr (List.mem_cons_of_mem x h1)

lemma sorted_addResource (q : List ResourceItem)
    (url : String) (type : ResourceType) (priority : ResourcePriority)
    (h : q.Sorted PriorityLE) :
    (addResource q url type priority).Sorted PriorityLE := by
  induction q with
  | nil =>
    rw [addResource_nil]
    exact List.sorted_singleton _
  | cons x xs ih =>
    rw [addResource_cons]
    by_cases hx : priorityOrder priority < priorityOrder x.priority
    · rw [if_pos hx]
      refine List.Pairwise.cons ?_ h
      intro b hb
      rcases List.mem_cons.mp hb with h1 | h1
      · show priorityOrder priority ≤ priorityOrder b.priority
        rw [h1]
        exact Nat.le_of_lt hx
      · have hxb : PriorityLE x b := List.rel_of_sorted_cons h b h1
        show priorityOrder priority ≤ priorityOrder b.priority
        exact Nat.le_trans (Nat.le_of_lt hx) hxb
    · rw [if_neg hx]
      refine List.Pairwise.cons ?_ (ih h.of_cons)
      intro b hb
      rcases mem_addResource xs url type priority hb with h1 | h1
      · show priorityOrder x.priority ≤ priorityOrder b.priority
        rw [h1]
        exact Nat.not_lt.mp hx
      · exact List.rel_of_sorted_cons h b h1

/-- Two concrete resource items of extreme priorities. -/
def lowItem : ResourceItem := ⟨"bg.png", .texture, .low⟩

/-- See `lowItem`. -/
def highItem : ResourceItem := ⟨"hero.glb", .model, .high⟩

/-- C4 (counterexample).  Dequeue order is not independent of priority:
adding a `low` item and then a `high` item yields the queue
`[highItem, lowItem]`, and `preload`'s `loadNext` dequeues with
`shift()` from the front — so the `high` item begins loading first,
never the earlier-added `low` one. -/
theorem low_added_before_high_does_not_load_first :
    addResource (addResource [] "bg.png" .texture .low) "hero.glb" .model .high
      = [highItem, lowItem] ∧
    (addResource (addResource [] "bg.png" .texture .low) "hero.glb" .model .high).head?
      = some highItem := by
  constructor <;> rfl

/-- C4 (amended).  `addResource` keeps `loadingQueue` sorted by
priority — `high` before `medium` before `low`, first-in first-out
within the same class — so for items already enqueued when loading
starts, the head that `loadNext` shifts off is always of
maximal priority among the queued items. -/
theorem addResource_keeps_queue_priority_sorted :
    (∀ (queue resources : List ResourceItem),
        queue.Sorted PriorityLE → (addResources queue resources).Sorted PriorityLE) ∧
    (∀ (item : ResourceItem) (rest : List ResourceItem),
        (item :: rest).Sorted PriorityLE → ∀ x ∈ rest, PriorityLE item x) := by
  constructor
  · intro queue resources
    induction resources generalizing queue with
    | nil => exact fun h => h
    | cons r rs ih => exact fun h => ih _ (sorted_addResource _ _ _ _ h)
  · intro item rest h x hx
    exact List.rel_of_sorted_cons h x hx

/-- Witness: enqueuing `lowItem` then `highItem` from the empty queue
yields a priority-sorted queue whose head is bound below its tail. -/
theorem addResource_keeps_queue_priority_sorted_witness :
    (addResources [] [lowItem, highItem]).Sorted PriorityLE ∧
    PriorityLE highItem lowItem :=
  ⟨addResource_keeps_queue_priority_sorted.1 [] [lowItem, highItem] List.sorted_nil,
   addResource_keeps_queue_priority_sorted.2 highItem [lowItem] (by decide) lowItem
     (List.mem_singleton.mpr rfl)⟩

/-! ## Re-entry guard of `preload` (claim C10) -/

/-- A call of `preload` observed at its entry.

```js
if (this.isLoading) {
  console.warn('Preloader is already running');
  return this.loadedResources;
}
this.isLoading = true;
...
```
If the guard fires, the call returns the current `loadedResources` with
the state untouched; otherwise `isLoading` is set and the run proceeds
by `PreloadStep`s, the call returning the `loadedResources` of a state
the run reaches. -/
inductive PreloadCall : PreloaderState → PreloaderState × List String → Prop where
  | alreadyRunning (s : PreloaderState) (h : s.isLoading = true) :
      PreloadCall s (s, s.loadedResources)
  | run (s s' : PreloaderState) (h : s.isLoading = false)
      (hsteps : Relation.ReflTransGen PreloadStep { s with isLoading := true } s') :
      PreloadCall s (s', s'.loadedResources)

/-- C10.  Calling `preload` while `isLoading` is `true` performs no
loading: the only possible outcome is the unchanged state, returning
the current `loadedResources` map. -/
theorem preload_reentry_guard :
    ∀ (s : PreloaderState) (out : PreloaderState × List String),
      PreloadCall s out → s.isLoading = true → out = (s, s.loadedResources) := by
  intro s out hcall hl
  cases hcall with
  | alreadyRunning => rfl
  | run s' h hsteps => exact absurd hl (by rw [h]; exact Bool.noConfusion)

/-- A preloader that is mid-run: one item queued, already loading. -/
def busyPreloader : PreloaderState :=
  ⟨[itemA], 0, true, ["done.png"], [], [], []⟩

/-- Witness: a `preload` call on `busyPreloader` returns the state and
the current key set `["done.png"]` unchanged. -/
theorem preload_reentry_guard_witness :
    ((busyPreloader, ["done.png"]) : PreloaderState × List String)
      = (busyPreloader, busyPreloader.loadedResources) :=
  preload_reentry_guard busyPreloader (busyPreloader, ["done.png"])
    (PreloadCall.alreadyRunning busyPreloader rfl) rfl

/-! ## Route table (claim C7) -/

/-- The four lazily loaded page components of `src/App.tsx`. -/
inductive Page where
  | home
  | portfolio
  | about
  | contact
deriving DecidableEq, Repr

/-- The `<Route path element>` table inside `<Routes>` in `App`, in
source order; each element renders the page inside a `LazyWrapper`. -/
def appRoutes : List (String × Page) :=
  [("/", .home), ("/portfolio", .portfolio), ("/about", .about), ("/contact", .contact)]

/-- Resolution of a location against the route table (first match). -/
def matchRoute (path : String) : Option Page :=
  (appRoutes.find? (fun r => r.1 = path)).map Prod.snd

/-- C7.  The client-side route table consists of exactly the paths `/`,
`/portfolio`, `/about` and `/contact`, mapped respectively to the
`Home`, `Portfolio`, `About` and `Contact` pages: those four
resolutions hold, and any resolved (path, page) pair is one of the four
table rows. -/
theorem route_table_is_the_four_pages :
    appRoutes.map Prod.fst = ["/", "/portfolio", "/about", "/contact"] ∧
    matchRoute "/" = some Page.home ∧
    matchRoute "/portfolio" = some Page.portfolio ∧
    matchRoute "/about" = some Page.about ∧
    matchRoute "/contact" = some Page.contact ∧
    (∀ (path : String) (page : Page),
      matchRoute path = some page ↔ (path, page) ∈ appRoutes) := by
  refine ⟨rfl, rfl, rfl, rfl, rfl, ?_⟩
  intro path page
  constructor
  · intro h
    obtain ⟨p, hp, hsnd⟩ := Option.map_eq_some'.mp h
    have hmem := List.mem_of_find?_eq_some hp
    have hkey : p.1 = path := by simpa using List.find?_some hp
    have hpp : p = (path, page) := Prod.ext hkey hsnd
    exact hpp ▸ hmem
  · intro h
    fin_cases h <;> rfl

/-! ## Error boundary (claim C8) -/

/-- The `ErrorBoundary` component's state, `{ hasError, error? }`. -/
structure ErrorBoundaryState (E : Type) where
  hasError : Bool
  error : Option E

/-- The `ErrorBoundary` component's props: `children` and an optional
`fallback` node. -/
structure ErrorBoundaryProps (V : Type) where
  children : V
  fallback : Option V

/-- `static getDerivedStateFromError(error)` — invoked by React when
any descendant throws while rendering (e.g. a WebGL-unsupported
failure); the returned object becomes the whole new state, so the error
stops here instead of propagating. -/
def getDerivedStateFromError {E : Type} (error : E) : ErrorBoundaryState E :=
  ⟨true, some error⟩

/-- The retry button's `onClick={() => this.setState({ hasError: false })}`;
`setState` merges, so `error` is kept. -/
def retryReset {E : Type} (s : ErrorBoundaryState E) : ErrorBoundaryState E :=
  { s with hasError := false }

/-- `render()`: while `hasError` is set, the custom `fallback` when the
prop is provided, else the built-in error view (the screen with the
reload-page and retry buttons); otherwise the children. -/
def renderBoundary {E V : Type} (defaultErrorView : V)
    (props : ErrorBoundaryProps V) (s : ErrorBoundaryState E) : V :=
  if s.hasError then
    match props.fallback with
    | some fb => fb
    | none => defaultErrorView
  else
    props.children

/-- C8.  Once an error is caught (`getDerivedStateFromError` sets
`hasError`), `render` shows the fallback when one is given and the
default view with its reload and retry actions otherwise — never the
children; and after the retry action resets `hasError` to `false`,
`render` shows the children again, from any state. -/
theorem error_boundary_catches_and_retry_restores :
    (∀ (E V : Type) (defaultErrorView : V) (p : ErrorBoundaryProps V) (e : E),
        renderBoundary defaultErrorView p (getDerivedStateFromError e)
          = p.fallback.getD defaultErrorView) ∧
    (∀ (E V : Type) (defaultErrorView : V) (p : ErrorBoundaryProps V)
        (s : ErrorBoundaryState E),
        renderBoundary defaultErrorView p (retryReset s) = p.children) := by
  constructor
  · intro E V d p e
    obtain ⟨ch, fb⟩ := p
    cases fb <;> rfl
  · intro E V d p s
    rfl

end Site3D
